import Mathlib

/-!
# Verification of the Appeal_reader synchronization pipeline

Shallow embedding of the three source modules (`delta_calc.py`,
`eat_remote_index.py`, `eat_downloader.py`) and proofs of the spec claims.

Python dictionaries are modelled as association lists with insert-overwrite
semantics (`dictInsert`) and first-match lookup (`dictGet`); since
`dictInsert` replaces in place, first-match lookup coincides with Python's
unique-key dictionary lookup.  Network and filesystem effects are modelled
as explicit oracles passed to the embedded functions.  Machine integers are
`Int` (Python integers are unbounded, so no wrap-around modelling is
needed).
-/

namespace AppealReader

/-- Python `dict` assignment `m[k] = v`: replaces the value in place when the
key is present (keeping insertion order), otherwise appends the new binding. -/
def dictInsert {β : Type} (m : List (String × β)) (k : String) (v : β) :
    List (String × β) :=
  if m.any (fun p => p.1 = k) then
    m.map (fun p => if p.1 = k then (k, v) else p)
  else
    m ++ [(k, v)]

/-- Python `dict` lookup `m.get(k)`: the binding for `k`, if any.  Keys built
with `dictInsert` are unique, so first match is the dictionary value. -/
def dictGet {β : Type} (m : List (String × β)) (k : String) : Option β :=
  (m.find? (fun p => p.1 = k)).map (fun p => p.2)

/-- Removal of a key (used to model a file disappearing from a directory on
`shutil.move`). -/
def dictRemove {β : Type} (m : List (String × β)) (k : String) :
    List (String × β) :=
  m.filter (fun p => p.1 ≠ k)

/-- The keys of a dict, in insertion order. -/
def dictKeys {β : Type} (m : List (String × β)) : List String :=
  m.map Prod.fst

theorem dictKeys_dictInsert {β : Type} (m : List (String × β)) (k : String)
    (v : β) :
    dictKeys (dictInsert m k v) =
      if m.any (fun p => p.1 = k) then dictKeys m else dictKeys m ++ [k] := by
  unfold dictInsert dictKeys
  by_cases h : m.any (fun p => p.1 = k)
  · simp only [h, if_true, List.map_map]
    apply List.map_congr_left
    intro p _
    by_cases hk : p.1 = k <;> simp [Function.comp, hk]
  · simp [h]

theorem mem_dictKeys_dictInsert {β : Type} (m : List (String × β)) (k : String)
    (v : β) (a : String) :
    a ∈ dictKeys (dictInsert m k v) ↔ a ∈ dictKeys m ∨ a = k := by
  rw [dictKeys_dictInsert]
  by_cases h : m.any (fun p => p.1 = k)
  · simp only [h, if_true]
    constructor
    · exact Or.inl
    · rintro (ha | rfl)
      · exact ha
      · simp only [List.any_eq_true, decide_eq_true_eq] at h
        obtain ⟨p, hp, hk⟩ := h
        exact hk ▸ List.mem_map_of_mem Prod.fst hp
  · simp [h]

/-! ## Delta engine (`delta_calc.py`, `compute_delta`)

A remote-index value (one entry of the slug-keyed dict produced by the
indexer) is modelled by the three fields `compute_delta` reads; a
local-index value by the two fields it reads.  Sizes are `Option Int`:
`pdf_content_length` is produced by `_safe_int` (so `None` or an integer)
and `size` by `stat.st_size`; the `int(...)`/`try` conversion in
`compute_delta` is the identity on integers. -/

structure RemoteRec where
  pdf_filename : Option String
  pdf_url : Option String
  pdf_content_length : Option Int
deriving DecidableEq

structure LocalRec where
  size : Option Int
  path : Option String
deriving DecidableEq

/-- One value of the `remote_by_filename` dict: `{"slug": slug, **r}`. -/
structure RbfEntry where
  slug : String
  r : RemoteRec
deriving DecidableEq

/-- `remote_by_filename`: map remote filename to remote record + slug.
Python's `if fn:` keeps only records whose `pdf_filename` is a non-empty
string (truthiness skips both `None` and `""`). -/
def remoteByFilename (remote : List (String × RemoteRec)) :
    List (String × RbfEntry) :=
  remote.foldl
    (fun m p =>
      match p.2.pdf_filename with
      | some fn => if fn ≠ "" then dictInsert m fn ⟨p.1, p.2⟩ else m
      | none => m)
    []

/-- `remote_files = set(remote_by_filename.keys())`. -/
def remoteFilenames (remote : List (String × RemoteRec)) : Finset String :=
  (dictKeys (remoteByFilename remote)).toFinset

/-- `local_files = set((local_index or {}).keys())`. -/
def localFilenames (loc : List (String × LocalRec)) : Finset String :=
  (dictKeys loc).toFinset

structure MissingEntry where
  filename : String
  slug : Option String
  pdf_url : Option String
deriving DecidableEq

structure ChangedEntry where
  filename : String
  slug : String
  remote_size : Int
  local_size : Int
  pdf_url : Option String
deriving DecidableEq

structure OrphanEntry where
  filename : String
  path : Option String
deriving DecidableEq

structure DeltaCounts where
  remote : Nat
  lcl : Nat
  missing : Nat
  changed : Nat
  orphaned : Nat
deriving DecidableEq

structure Delta where
  counts : DeltaCounts
  missing : List MissingEntry
  changed : List ChangedEntry
  orphaned : List OrphanEntry
deriving DecidableEq

/-- The body of the `changed` loop of `compute_delta`: for each filename of
the sorted intersection, compare `pdf_content_length` with local `size` when
both are available and record the mismatch. -/
def changedEntryFor (rbf : List (String × RbfEntry)) (loc : List (String × LocalRec))
    (fn : String) : Option ChangedEntry :=
  match dictGet rbf fn, dictGet loc fn with
  | some e, some l =>
    match e.r.pdf_content_length, l.size with
    | some rs, some ls =>
      if rs ≠ ls then some ⟨fn, e.slug, rs, ls, e.r.pdf_url⟩ else none
    | _, _ => none
  | _, _ => none

/-- `compute_delta(remote_index, local_index)` from `delta_calc.py`. -/
def computeDelta (remote : List (String × RemoteRec)) (loc : List (String × LocalRec)) :
    Delta :=
  let rbf := remoteByFilename remote
  let remoteF := remoteFilenames remote
  let localF := localFilenames loc
  let missingFiles := (remoteF \ localF).sort (· ≤ ·)
  let orphanedFiles := (localF \ remoteF).sort (· ≤ ·)
  let changed := ((remoteF ∩ localF).sort (· ≤ ·)).filterMap (changedEntryFor rbf loc)
  { counts :=
      { remote := remoteF.card
        lcl := localF.card
        missing := missingFiles.length
        changed := changed.length
        orphaned := orphanedFiles.length }
    missing := missingFiles.map (fun fn =>
      ⟨fn, (dictGet rbf fn).map (fun e => e.slug),
          (dictGet rbf fn).bind (fun e => e.r.pdf_url)⟩)
    changed := changed
    orphaned := orphanedFiles.map (fun fn =>
      ⟨fn, (dictGet loc fn).bind (fun l => l.path)⟩) }

theorem mem_remoteFilenames (remote : List (String × RemoteRec)) (fn : String) :
    fn ∈ remoteFilenames remote ↔
      ∃ p ∈ remote, p.2.pdf_filename = some fn ∧ fn ≠ "" := by
  unfold remoteFilenames remoteByFilename
  rw [List.mem_toFinset]
  suffices h : ∀ (m : List (String × RbfEntry)),
      fn ∈ dictKeys (remote.foldl
        (fun m p =>
          match p.2.pdf_filename with
          | some f => if f ≠ "" then dictInsert m f ⟨p.1, p.2⟩ else m
          | none => m) m) ↔
      fn ∈ dictKeys m ∨ ∃ p ∈ remote, p.2.pdf_filename = some fn ∧ fn ≠ "" by
    simpa [dictKeys] using h []
  induction remote with
  | nil => simp
  | cons q rest ih =>
    intro m
    simp only [List.foldl_cons]
    rw [ih]
    match hq : q.2.pdf_filename with
    | none => simp [hq]
    | some f =>
      by_cases hf : f = ""
      · subst hf
        simp only [hq, ne_eq, not_true_eq_false, if_false]
        constructor
        · rintro (h | ⟨p, hp, hfn, hne⟩)
          · exact Or.inl h
          · exact Or.inr ⟨p, List.mem_cons_of_mem q hp, hfn, hne⟩
        · rintro (h | ⟨p, hp, hfn, hne⟩)
          · exact Or.inl h
          · rcases List.mem_cons.mp hp with rfl | hp'
            · rw [hq] at hfn
              exact absurd (Option.some.inj hfn).symm hne
            · exact Or.inr ⟨p, hp', hfn, hne⟩
      · simp only [hq, ne_eq, hf, not_false_eq_true, if_true,
          mem_dictKeys_dictInsert]
        constructor
        · rintro ((h | rfl) | ⟨p, hp, hfn, hne⟩)
          · exact Or.inl h
          · exact Or.inr ⟨q, List.mem_cons_self q rest, hq, hf⟩
          · exact Or.inr ⟨p, List.mem_cons_of_mem q hp, hfn, hne⟩
        · rintro (h | ⟨p, hp, hfn, hne⟩)
          · exact Or.inl (Or.inl h)
          · rcases List.mem_cons.mp hp with rfl | hp'
            · exact Or.inl (Or.inr (Option.some.inj (hq ▸ hfn)).symm)
            · exact Or.inr ⟨p, hp', hfn, hne⟩

theorem changedEntryFor_eq_some (rbf : List (String × RbfEntry))
    (loc : List (String × LocalRec)) (fn : String) (e : ChangedEntry) :
    changedEntryFor rbf loc fn = some e ↔
      ∃ re l, dictGet rbf fn = some re ∧ dictGet loc fn = some l ∧
        ∃ rs ls, re.r.pdf_content_length = some rs ∧ l.size = some ls ∧
          rs ≠ ls ∧ e = ⟨fn, re.slug, rs, ls, re.r.pdf_url⟩ := by
  unfold changedEntryFor
  cases hr : dictGet rbf fn with
  | none => simp
  | some re =>
    cases hl : dictGet loc fn with
    | none => simp
    | some l =>
      cases hc : re.r.pdf_content_length with
      | none => simp [hc]
      | some rs =>
        cases hs : l.size with
        | none => simp [hc, hs]
        | some ls =>
          by_cases hne : rs = ls
          · simp [hc, hs, hne]
          · simp only [hc, hs, ne_eq, hne, not_false_eq_true, if_true,
              Option.some.injEq]
            constructor
            · rintro rfl
              exact ⟨re, l, rfl, rfl, rs, ls, hc, hs, hne, rfl⟩
            · rintro ⟨re', l', hre, hl', rs', ls', hc', hs', _, rfl⟩
              obtain rfl : re = re' := hre
              obtain rfl : l = l' := hl'
              rw [hc] at hc'
              obtain rfl : rs = rs' := Option.some.inj hc'
              rw [hs] at hs'
              obtain rfl : ls = ls' := Option.some.inj hs'
              rfl

theorem changedEntryFor_filename (rbf : List (String × RbfEntry))
    (loc : List (String × LocalRec)) (fn : String) (e : ChangedEntry)
    (h : changedEntryFor rbf loc fn = some e) : e.filename = fn := by
  obtain ⟨re, l, _, _, rs, ls, _, _, _, rfl⟩ :=
    (changedEntryFor_eq_some rbf loc fn e).mp h
  rfl

theorem changed_map_filename_sublist (rbf : List (String × RbfEntry))
    (loc : List (String × LocalRec)) (l : List String) :
    ((l.filterMap (changedEntryFor rbf loc)).map ChangedEntry.filename).Sublist l := by
  induction l with
  | nil => simp
  | cons a t ih =>
    rw [List.filterMap_cons]
    cases h : changedEntryFor rbf loc a with
    | none => exact ih.cons a
    | some e =>
      rw [List.map_cons, changedEntryFor_filename rbf loc a e h]
      exact ih.cons₂ a

theorem computeDelta_missing_map (remote : List (String × RemoteRec))
    (loc : List (String × LocalRec)) :
    (computeDelta remote loc).missing.map MissingEntry.filename =
      ((remoteFilenames remote) \ (localFilenames loc)).sort (· ≤ ·) := by
  simp [computeDelta, List.map_map, Function.comp_def]

theorem computeDelta_orphaned_map (remote : List (String × RemoteRec))
    (loc : List (String × LocalRec)) :
    (computeDelta remote loc).orphaned.map OrphanEntry.filename =
      ((localFilenames loc) \ (remoteFilenames remote)).sort (· ≤ ·) := by
  simp [computeDelta, List.map_map, Function.comp_def]

/-- **C1.**  For every pair of catalogs given to `compute_delta`, the
`missing` list is exactly the (sorted, ascending) set of remote filenames —
the filenames of remote records carrying a (truthy) `pdf_filename` — not
present among local filenames; `orphaned` is exactly the sorted set of
local filenames not present among remote filenames; and `missing`,
`orphaned` and `changed` are all sorted by filename in ascending order. -/
theorem C1_delta_set_algebra_sorted (remote : List (String × RemoteRec))
    (loc : List (String × LocalRec)) :
    ((computeDelta remote loc).missing.map MissingEntry.filename =
        ((remoteFilenames remote) \ (localFilenames loc)).sort (· ≤ ·))
    ∧ ((computeDelta remote loc).orphaned.map OrphanEntry.filename =
        ((localFilenames loc) \ (remoteFilenames remote)).sort (· ≤ ·))
    ∧ (∀ fn, (∃ e ∈ (computeDelta remote loc).missing, e.filename = fn) ↔
        fn ∈ remoteFilenames remote ∧ fn ∉ localFilenames loc)
    ∧ (∀ fn, (∃ e ∈ (computeDelta remote loc).orphaned, e.filename = fn) ↔
        fn ∈ localFilenames loc ∧ fn ∉ remoteFilenames remote)
    ∧ (∀ fn, fn ∈ remoteFilenames remote ↔
        ∃ p ∈ remote, p.2.pdf_filename = some fn ∧ fn ≠ "")
    ∧ (∀ fn, fn ∈ localFilenames loc ↔ fn ∈ dictKeys loc)
    ∧ List.Sorted (· ≤ ·)
        ((computeDelta remote loc).missing.map MissingEntry.filename)
    ∧ List.Sorted (· ≤ ·)
        ((computeDelta remote loc).orphaned.map OrphanEntry.filename)
    ∧ List.Sorted (· ≤ ·)
        ((computeDelta remote loc).changed.map ChangedEntry.filename) := by
  refine ⟨computeDelta_missing_map remote loc, computeDelta_orphaned_map remote loc,
    ?_, ?_, mem_remoteFilenames remote, ?_, ?_, ?_, ?_⟩
  · intro fn
    constructor
    · rintro ⟨e, he, rfl⟩
      have : e.filename ∈ (computeDelta remote loc).missing.map MissingEntry.filename :=
        List.mem_map_of_mem _ he
      rw [computeDelta_missing_map, Finset.mem_sort, Finset.mem_sdiff] at this
      exact this
    · rintro ⟨h1, h2⟩
      have : fn ∈ (computeDelta remote loc).missing.map MissingEntry.filename := by
        rw [computeDelta_missing_map, Finset.mem_sort, Finset.mem_sdiff]
        exact ⟨h1, h2⟩
      obtain ⟨e, he, hfn⟩ := List.mem_map.mp this
      exact ⟨e, he, hfn⟩
  · intro fn
    constructor
    · rintro ⟨e, he, rfl⟩
      have : e.filename ∈ (computeDelta remote loc).orphaned.map OrphanEntry.filename :=
        List.mem_map_of_mem _ he
      rw [computeDelta_orphaned_map, Finset.mem_sort, Finset.mem_sdiff] at this
      exact this
    · rintro ⟨h1, h2⟩
      have : fn ∈ (computeDelta remote loc).orphaned.map OrphanEntry.filename := by
        rw [computeDelta_orphaned_map, Finset.mem_sort, Finset.mem_sdiff]
        exact ⟨h1, h2⟩
      obtain ⟨e, he, hfn⟩ := List.mem_map.mp this
      exact ⟨e, he, hfn⟩
  · intro fn
    exact List.mem_toFinset
  · rw [computeDelta_missing_map]
    exact Finset.sort_sorted _ _
  · rw [computeDelta_orphaned_map]
    exact Finset.sort_sorted _ _
  · exact List.Pairwise.sublist (changed_map_filename_sublist _ _ _)
      (Finset.sort_sorted (· ≤ ·) _)

/-- **C2.**  A `ChangedEntry` is in `changed` iff its filename is in both
catalogs, both a remote `pdf_content_length` and a local `size` are
available, the two values are numerically unequal, and the entry carries
exactly those two values (plus the slug and url of the matched remote
record).  The second conjunct restates this per filename.  Pairs missing
either size produce no entry; the embedding is a total function, matching
the code's `try/except` that converts any comparison failure into a skip. -/
theorem C2_changed_characterisation (remote : List (String × RemoteRec))
    (loc : List (String × LocalRec)) :
    (∀ e, e ∈ (computeDelta remote loc).changed ↔
      (e.filename ∈ remoteFilenames remote ∧ e.filename ∈ localFilenames loc ∧
        ∃ re l, dictGet (remoteByFilename remote) e.filename = some re ∧
          dictGet loc e.filename = some l ∧
          re.r.pdf_content_length = some e.remote_size ∧
          l.size = some e.local_size ∧
          e.remote_size ≠ e.local_size ∧
          e.slug = re.slug ∧ e.pdf_url = re.r.pdf_url))
    ∧ (∀ fn, (∃ e ∈ (computeDelta remote loc).changed, e.filename = fn) ↔
      (fn ∈ remoteFilenames remote ∧ fn ∈ localFilenames loc ∧
        ∃ re l, dictGet (remoteByFilename remote) fn = some re ∧
          dictGet loc fn = some l ∧
          ∃ rs ls, re.r.pdf_content_length = some rs ∧ l.size = some ls ∧
            rs ≠ ls)) := by
  have hmem : ∀ e, e ∈ (computeDelta remote loc).changed ↔
      ∃ fn, (fn ∈ remoteFilenames remote ∧ fn ∈ localFilenames loc) ∧
        changedEntryFor (remoteByFilename remote) loc fn = some e := by
    intro e
    show e ∈ ((_ ∩ _ : Finset String).sort (· ≤ ·)).filterMap _ ↔ _
    rw [List.mem_filterMap]
    constructor
    · rintro ⟨fn, hfn, hg⟩
      rw [Finset.mem_sort, Finset.mem_inter] at hfn
      exact ⟨fn, hfn, hg⟩
    · rintro ⟨fn, hfn, hg⟩
      refine ⟨fn, ?_, hg⟩
      rw [Finset.mem_sort, Finset.mem_inter]
      exact hfn
  constructor
  · intro e
    rw [hmem]
    constructor
    · rintro ⟨fn, ⟨h1, h2⟩, hg⟩
      obtain ⟨re, l, hre, hl, rs, ls, hc, hs, hne, rfl⟩ :=
        (changedEntryFor_eq_some _ _ _ _).mp hg
      exact ⟨h1, h2, re, l, hre, hl, hc, hs, hne, rfl, rfl⟩
    · rintro ⟨h1, h2, re, l, hre, hl, hc, hs, hne, hslug, hurl⟩
      refine ⟨e.filename, ⟨h1, h2⟩, ?_⟩
      rw [changedEntryFor_eq_some]
      refine ⟨re, l, hre, hl, e.remote_size, e.local_size, hc, hs, hne, ?_⟩
      cases e
      simp_all
  · intro fn
    constructor
    · rintro ⟨e, he, rfl⟩
      obtain ⟨fn', ⟨h1, h2⟩, hg⟩ := (hmem e).mp he
      obtain rfl := changedEntryFor_filename _ _ _ _ hg
      obtain ⟨re, l, hre, hl, rs, ls, hc, hs, hne, he'⟩ :=
        (changedEntryFor_eq_some _ _ _ _).mp hg
      exact ⟨h1, h2, re, l, hre, hl, rs, ls, hc, hs, hne⟩
    · rintro ⟨h1, h2, re, l, hre, hl, rs, ls, hc, hs, hne⟩
      refine ⟨⟨fn, re.slug, rs, ls, re.r.pdf_url⟩, ?_, rfl⟩
      rw [hmem]
      refine ⟨fn, ⟨h1, h2⟩, ?_⟩
      rw [changedEntryFor_eq_some]
      exact ⟨re, l, hre, hl, rs, ls, hc, hs, hne, rfl⟩

/-! ## Resilient HTTP client (`eat_remote_index.py`, `HttpClient.head`)

An attempt of the retry loop is an oracle value: either the session call
raised a network exception, or it returned a response with a status code
and headers.  The `try` body of `head` raises on a retryable status
(429/500/502/503/504) and on any 4xx/5xx via `raise_for_status`; the
`except` branch returns the synthetic `_dummy_head_response` once retries
are exhausted, so the embedded function returns in `Except` and an
`Except.error` would correspond to an uncaught exception escaping `head`. -/

inductive HeadAttempt where
  | exn (msg : String)
  | resp (status : Nat) (headers : List (String × String))
deriving DecidableEq

structure HttpResponse where
  status : Nat
  url : String
  headers : List (String × String)
deriving DecidableEq

/-- `_dummy_head_response(url, error)`. -/
def dummyHeadResponse (url error : String) : HttpResponse :=
  { status := 0, url := url, headers := [("x-head-error", error)] }

/-- Statuses the client retries on (`429, 500, 502, 503, 504`). -/
def retryableStatus (s : Nat) : Bool :=
  s == 429 || s == 500 || s == 502 || s == 503 || s == 504

/-- The `try` body of one `head` attempt: raise on a retryable status, then
`raise_for_status()` (4xx/5xx), else return the response. -/
def headTryBody (url : String) (a : HeadAttempt) : Except String HttpResponse :=
  match a with
  | .exn e => .error e
  | .resp s h =>
    if retryableStatus s then .error ("HEAD " ++ url ++ " -> " ++ toString s)
    else if 400 ≤ s ∧ s < 600 then .error ("status " ++ toString s)
    else .ok { status := s, url := url, headers := h }

/-- True when the attempt raises inside the `try` body. -/
def attemptFails (a : HeadAttempt) : Bool :=
  match a with
  | .exn _ => true
  | .resp s _ => retryableStatus s || (decide (400 ≤ s) && decide (s < 600))

/-- The `for attempt in range(max_retries + 1)` loop of `head`.  `fuel` is
the number of remaining loop iterations; the fuel-exhausted case is the
`return _dummy_head_response(url, error=str(last_exc))` after the loop
(line 96, unreachable because the except branch already returns at
`attempt = max_retries`). -/
def headLoop (oracle : Nat → HeadAttempt) (url : String) (maxRetries : Nat) :
    Nat → Nat → String → Except String HttpResponse
  | _, 0, lastExc => .ok (dummyHeadResponse url lastExc)
  | attempt, fuel + 1, _ =>
    match headTryBody url (oracle attempt) with
    | .ok r => .ok r
    | .error e =>
      if maxRetries ≤ attempt then .ok (dummyHeadResponse url e)
      else headLoop oracle url maxRetries (attempt + 1) fuel e

/-- `HttpClient.head(url)`: run the retry loop from attempt 0. -/
def head (oracle : Nat → HeadAttempt) (url : String) (maxRetries : Nat) :
    Except String HttpResponse :=
  headLoop oracle url maxRetries 0 (maxRetries + 1) ""

theorem headTryBody_error_of_fails (url : String) (a : HeadAttempt)
    (h : attemptFails a = true) : ∃ e, headTryBody url a = .error e := by
  cases a with
  | exn e => exact ⟨e, rfl⟩
  | resp s hdr =>
    unfold attemptFails at h
    unfold headTryBody
    rcases Bool.or_eq_true_iff.mp h with h1 | h2
    · exact ⟨"HEAD " ++ url ++ " -> " ++ toString s, by simp [h1]⟩
    · have h4 : 400 ≤ s := of_decide_eq_true (Bool.and_eq_true_iff.mp h2).1
      have h6 : s < 600 := of_decide_eq_true (Bool.and_eq_true_iff.mp h2).2
      by_cases hr : retryableStatus s = true
      · exact ⟨"HEAD " ++ url ++ " -> " ++ toString s, by simp [hr]⟩
      · exact ⟨"status " ++ toString s, by simp [hr, h4, h6]⟩

theorem headLoop_isOk (oracle : Nat → HeadAttempt) (url : String)
    (maxRetries : Nat) :
    ∀ fuel attempt lastExc, ∃ r,
      headLoop oracle url maxRetries attempt fuel lastExc = .ok r := by
  intro fuel
  induction fuel with
  | zero => intro attempt lastExc; exact ⟨_, rfl⟩
  | succ n ih =>
    intro attempt lastExc
    unfold headLoop
    cases h : headTryBody url (oracle attempt) with
    | ok r => exact ⟨r, rfl⟩
    | error e =>
      by_cases ha : maxRetries ≤ attempt
      · exact ⟨dummyHeadResponse url e, by simp [ha]⟩
      · obtain ⟨r, hr⟩ := ih (attempt + 1) e
        exact ⟨r, by simp [ha, hr]⟩

theorem headLoop_allFail (oracle : Nat → HeadAttempt) (url : String)
    (maxRetries : Nat) (hall : ∀ k, k ≤ maxRetries → attemptFails (oracle k) = true) :
    ∀ fuel attempt lastExc, attempt ≤ maxRetries →
      ∃ e, headLoop oracle url maxRetries attempt fuel lastExc =
        .ok (dummyHeadResponse url e) := by
  intro fuel
  induction fuel with
  | zero => intro attempt lastExc _; exact ⟨lastExc, rfl⟩
  | succ n ih =>
    intro attempt lastExc ha
    obtain ⟨e, he⟩ := headTryBody_error_of_fails url (oracle attempt)
      (hall attempt ha)
    unfold headLoop
    rw [he]
    by_cases hm : maxRetries ≤ attempt
    · exact ⟨e, by simp [hm]⟩
    · obtain ⟨e', he'⟩ := ih (attempt + 1) e (by omega)
      exact ⟨e', by simp [hm, he']⟩

/-- **C3.**  `head` never raises: for every oracle of network failures /
statuses it returns a response (first conjunct: an `Except.error`, which
would model an exception escaping `head`, is impossible); and when every
attempt up to `max_retries` fails, the returned value is the synthetic
`_dummy_head_response`, which has status 0 and the `x-head-error`
marker header. -/
theorem C3_head_never_raises (oracle : Nat → HeadAttempt) (url : String)
    (maxRetries : Nat) :
    (∃ r, head oracle url maxRetries = .ok r)
    ∧ ((∀ k, k ≤ maxRetries → attemptFails (oracle k) = true) →
        ∃ e, head oracle url maxRetries = .ok (dummyHeadResponse url e)
          ∧ (dummyHeadResponse url e).status = 0
          ∧ dictGet (dummyHeadResponse url e).headers "x-head-error" = some e) := by
  constructor
  · exact headLoop_isOk oracle url maxRetries (maxRetries + 1) 0 ""
  · intro hall
    obtain ⟨e, he⟩ := headLoop_allFail oracle url maxRetries hall
      (maxRetries + 1) 0 "" (Nat.zero_le _)
    exact ⟨e, he, rfl, by simp [dummyHeadResponse, dictGet]⟩

/-- Witness for C3: an oracle whose every attempt is a network exception;
with `max_retries = 2` the client returns the synthetic error response. -/
theorem C3_head_never_raises_witness :
    ∃ e, head (fun _ => HeadAttempt.exn "connection reset") "https://a.example/x.pdf" 2 =
        .ok (dummyHeadResponse "https://a.example/x.pdf" e)
      ∧ (dummyHeadResponse "https://a.example/x.pdf" e).status = 0
      ∧ dictGet (dummyHeadResponse "https://a.example/x.pdf" e).headers "x-head-error" =
          some e :=
  (C3_head_never_raises (fun _ => HeadAttempt.exn "connection reset")
    "https://a.example/x.pdf" 2).2 (fun _ _ => rfl)

/-! ## Path utilities (`pathlib.Path.name / .stem / .suffix`)

Implemented by structural recursion on the character list so that concrete
witnesses evaluate inside the kernel.  `pathName` models `Path(p).name`
(the last non-empty `/`-separated component); `pyStem`/`pySuffix` model
CPython's `Path(name).stem/.suffix` rule: split at the last `.` only when
it is neither the first nor the last character of the final component. -/

def splitOnChar (c : Char) : List Char → List (List Char)
  | [] => [[]]
  | a :: rest =>
    let r := splitOnChar c rest
    if a = c then [] :: r
    else
      match r with
      | [] => [[a]]
      | h :: t => (a :: h) :: t

/-- `Path(p).name`: the final non-empty path component ("" for `""` / `"/"`). -/
def pathName (p : String) : String :=
  String.mk (((splitOnChar '/' p.toList).filter (fun l => l ≠ [])).getLastD [])

/-- Index of the last `'.'` of a character list, if any. -/
def lastDotIdx (l : List Char) : Option Nat :=
  match l.reverse.findIdx? (fun c => c = '.') with
  | some j => some (l.length - 1 - j)
  | none => none

/-- `PurePath(name).suffix`. -/
def pySuffix (name : String) : String :=
  let l := name.toList
  match lastDotIdx l with
  | some i => if 0 < i ∧ i < l.length - 1 then String.mk (l.drop i) else ""
  | none => ""

/-- `PurePath(name).stem`. -/
def pyStem (name : String) : String :=
  let l := name.toList
  match lastDotIdx l with
  | some i => if 0 < i ∧ i < l.length - 1 then String.mk (l.take i) else name
  | none => name

/-! ## Local scanner (`delta_calc.py`, `scan_local_pdfs`)

The `glob` enumeration is an oracle list of paths; what each enumerated
path looks like when it is subsequently processed is a `PathFate` oracle:
it may have vanished before the `is_file()` check (`is_file()` is then
`False`), it may vanish between `is_file()` and `stat()` (the caught
`FileNotFoundError`), it may be no regular file, it may vanish after
`stat()` but before `open()` (only reachable when hashing — `open` is
outside the `try`, so this one would propagate), or it is present with a
size, mtime and content hash.  `mtime` (a float in the code) is modelled
as an integer-valued observation; hashing is modelled by the oracle's hash
string. -/

inductive PathFate where
  | goneAtCheck
  | notRegularFile
  | goneAtStat
  | goneAtOpen (size : Int) (mtime : Int)
  | present (size : Int) (mtime : Int) (hash : String)
deriving DecidableEq

/-- File vanished between enumeration and per-file processing (before or at
the `stat` call) — the two windows the claim is about. -/
def fateVanished : PathFate → Bool
  | .goneAtCheck => true
  | .goneAtStat => true
  | _ => false

def fateGoneAtOpen : PathFate → Bool
  | .goneAtOpen _ _ => true
  | _ => false

structure ScanEntry where
  path : String
  filename : String
  size : Int
  mtime : Int
  sha256 : Option String
deriving DecidableEq

/-- The `for p in root_dir.glob(pattern)` loop of `scan_local_pdfs`. -/
def scanGo (fate : String → PathFate) (computeSha : Bool) :
    List String → List (String × ScanEntry) →
    Except String (List (String × ScanEntry))
  | [], acc => .ok acc
  | p :: rest, acc =>
    match fate p with
    | .goneAtCheck => scanGo fate computeSha rest acc
    | .notRegularFile => scanGo fate computeSha rest acc
    | .goneAtStat => scanGo fate computeSha rest acc
    | .goneAtOpen sz mt =>
      if computeSha then .error "FileNotFoundError"
      else scanGo fate computeSha rest
        (dictInsert acc (pathName p) ⟨p, pathName p, sz, mt, none⟩)
    | .present sz mt h =>
      scanGo fate computeSha rest
        (dictInsert acc (pathName p)
          ⟨p, pathName p, sz, mt, if computeSha then some h else none⟩)

/-- `scan_local_pdfs(root_dir, recursive, compute_sha256)`, with the glob
result and per-file fates supplied by oracles. -/
def scanLocalPdfs (enum : List String) (fate : String → PathFate)
    (computeSha : Bool) : Except String (List (String × ScanEntry)) :=
  scanGo fate computeSha enum []

theorem scanGo_filter_vanished (fate : String → PathFate) (computeSha : Bool) :
    ∀ (enum : List String) (acc : List (String × ScanEntry)),
      scanGo fate computeSha enum acc =
        scanGo fate computeSha
          (enum.filter (fun p => !(fateVanished (fate p)))) acc := by
  intro enum
  induction enum with
  | nil => intro acc; rfl
  | cons p rest ih =>
    intro acc
    rw [List.filter_cons]
    by_cases hv : fateVanished (fate p) = true
    · rw [hv]
      simp only [Bool.not_true]
      rw [if_neg (by simp)]
      cases hf : fate p with
      | goneAtCheck => simp only [scanGo, hf]; exact ih acc
      | goneAtStat => simp only [scanGo, hf]; exact ih acc
      | notRegularFile => rw [hf] at hv; simp [fateVanished] at hv
      | goneAtOpen sz mt => rw [hf] at hv; simp [fateVanished] at hv
      | present sz mt h => rw [hf] at hv; simp [fateVanished] at hv
    · have hv' : fateVanished (fate p) = false := by
        revert hv; cases fateVanished (fate p) <;> simp
      rw [hv']
      simp only [Bool.not_false]
      rw [if_pos trivial]
      cases hf : fate p with
      | goneAtCheck => rw [hf] at hv'; simp [fateVanished] at hv'
      | goneAtStat => rw [hf] at hv'; simp [fateVanished] at hv'
      | notRegularFile => simp only [scanGo, hf]; exact ih acc
      | goneAtOpen sz mt =>
        cases hc : computeSha with
        | true => simp [scanGo, hf]
        | false =>
          simp only [scanGo, hf, Bool.false_eq_true, if_false]
          rw [hc] at ih
          exact ih _
      | present sz mt h =>
        simp only [scanGo, hf]
        exact ih _

theorem scanGo_isOk (fate : String → PathFate) (computeSha : Bool) :
    ∀ (enum : List String) (acc : List (String × ScanEntry)),
      (computeSha = true → ∀ p ∈ enum, fateGoneAtOpen (fate p) = false) →
      ∃ cat, scanGo fate computeSha enum acc = .ok cat := by
  intro enum
  induction enum with
  | nil => intro acc _; exact ⟨acc, rfl⟩
  | cons p rest ih =>
    intro acc hsafe
    have hrest : computeSha = true → ∀ q ∈ rest, fateGoneAtOpen (fate q) = false :=
      fun hc q hq => hsafe hc q (List.mem_cons_of_mem p hq)
    cases hf : fate p with
    | goneAtCheck => simpa [scanGo, hf] using ih acc hrest
    | goneAtStat => simpa [scanGo, hf] using ih acc hrest
    | notRegularFile => simpa [scanGo, hf] using ih acc hrest
    | goneAtOpen sz mt =>
      cases hc : computeSha with
      | true =>
        have := hsafe hc p (List.mem_cons_self p rest)
        rw [hf] at this
        simp [fateGoneAtOpen] at this
      | false =>
        simpa [scanGo, hf, hc] using
          ih (dictInsert acc (pathName p) ⟨p, pathName p, sz, mt, none⟩)
            (by intro h'; rw [h'] at hc; exact absurd hc (by simp))
    | present sz mt h =>
      simpa [scanGo, hf] using
        ih (dictInsert acc (pathName p)
          ⟨p, pathName p, sz, mt, if computeSha then some h else none⟩) hrest

/-- **C8.**  With or without hash computation, a file that disappears
between directory enumeration and its per-file processing (the `is_file()`
check or the `stat()` call) is silently skipped: the scan is exactly the
scan of the enumeration without those files, and — provided no file
vanishes *during* hashing, the only window the code leaves unguarded and
one outside this claim — the scanner returns a catalog and raises no
error. -/
theorem C8_scan_skips_vanished (enum : List String) (fate : String → PathFate)
    (computeSha : Bool)
    (hsafe : computeSha = true → ∀ p ∈ enum, fateGoneAtOpen (fate p) = false) :
    scanLocalPdfs enum fate computeSha =
        scanLocalPdfs (enum.filter (fun p => !(fateVanished (fate p)))) fate
          computeSha
    ∧ ∃ cat, scanLocalPdfs enum fate computeSha = .ok cat := by
  constructor
  · exact scanGo_filter_vanished fate computeSha enum []
  · exact scanGo_isOk fate computeSha enum [] hsafe

/-- Witness for C8: one present file and one that vanished before its
`is_file()` check, with hashing requested; the scan succeeds and equals the
scan of the surviving file alone. -/
theorem C8_scan_skips_vanished_witness :
    scanLocalPdfs ["dir/a.pdf", "dir/gone.pdf"]
        (fun p => if p = "dir/gone.pdf" then PathFate.goneAtCheck
          else PathFate.present 10 0 "h") true =
      scanLocalPdfs
        (["dir/a.pdf", "dir/gone.pdf"].filter
          (fun p => !(fateVanished
            ((fun p => if p = "dir/gone.pdf" then PathFate.goneAtCheck
              else PathFate.present 10 0 "h") p))))
        (fun p => if p = "dir/gone.pdf" then PathFate.goneAtCheck
          else PathFate.present 10 0 "h") true
    ∧ ∃ cat, scanLocalPdfs ["dir/a.pdf", "dir/gone.pdf"]
        (fun p => if p = "dir/gone.pdf" then PathFate.goneAtCheck
          else PathFate.present 10 0 "h") true = .ok cat :=
  C8_scan_skips_vanished ["dir/a.pdf", "dir/gone.pdf"]
    (fun p => if p = "dir/gone.pdf" then PathFate.goneAtCheck
      else PathFate.present 10 0 "h") true
    (by decide)

/-! ## Checkpointed downloader (`eat_downloader.py`)

The filesystem is a dict from path to file content.  Per-item effects are
oracles: whether `shutil.move` raises for an item, and whether
`_download_file` succeeds (returning the downloaded content) or raises
after its internal retries.  `_safe_ts()` is an oracle indexed by the
number of archives performed so far (modelling the wall clock advancing —
the code gives UTC timestamps at one-second resolution and nothing more).
Checkpoint persistence (`_write_json_atomic`) is modelled by the state
update itself plus a ghost `persists` counter; ghost logs record which
items issued a network fetch and which items were processed (not skipped).
Path joins `eat_dir / filename` are modelled as string concatenation with
`"/"`. -/

structure PlanItem where
  kind : String
  slug : String
  filename : String
  url : String
deriving DecidableEq

structure FailureRec where
  kind : String
  slug : String
  filename : String
  url : String
  error : String
deriving DecidableEq

structure Checkpoint where
  downloaded : List String
  archived : List String
  failed : List FailureRec
deriving DecidableEq

structure DlEnv where
  eatDir : String
  archiveDir : String
  archiveChanged : Bool
  archiveRaise : PlanItem → Option String
  fetchOutcome : PlanItem → Except String String
  ts : Nat → String

structure DlState where
  fs : List (String × String)
  downloaded : List String
  archived : List String
  failed : List FailureRec
  alreadyDone : List String
  fetchLog : List PlanItem
  processedLog : List PlanItem
  persists : Nat
deriving DecidableEq

/-- `f"{local_path.stem}__{slug}__archived_{ts}{local_path.suffix}"`. -/
def archivedName (origName slug ts : String) : String :=
  pyStem origName ++ "__" ++ slug ++ "__archived_" ++ ts ++ pySuffix origName

/-- `_archive_existing(local_path, archive_dir, slug)`: move the file to the
archive directory under the timestamped name; `None` if the file does not
exist.  `shutil.move` onto an existing path overwrites it (`dictInsert`). -/
def archiveExisting (fs : List (String × String)) (localPath archiveDir slug ts :
    String) : List (String × String) × Option String :=
  match dictGet fs localPath with
  | none => (fs, none)
  | some content =>
    let ap := archiveDir ++ "/" ++ archivedName (pathName localPath) slug ts
    (dictInsert (dictRemove fs localPath) ap content, some ap)

def mkFailure (it : PlanItem) (e : String) : FailureRec :=
  ⟨it.kind, it.slug, it.filename, it.url, e⟩

def destOf (env : DlEnv) (it : PlanItem) : String :=
  env.eatDir ++ "/" ++ it.filename

/-- Ghost bookkeeping: the item was not skipped. -/
def notSkippedState (s : DlState) (it : PlanItem) : DlState :=
  { s with processedLog := s.processedLog ++ [it] }

/-- The `if kind == "changed" and archive_changed and dest.exists():` block
of the `try`, possibly raising (`Except.error`) via the move oracle. -/
def archPhase (env : DlEnv) (s : DlState) (it : PlanItem) :
    Except String DlState :=
  if it.kind = "changed" ∧ env.archiveChanged = true ∧
      (dictGet s.fs (destOf env it)).isSome then
    match env.archiveRaise it with
    | some e => .error e
    | none =>
      match archiveExisting s.fs (destOf env it) env.archiveDir it.slug
          (env.ts s.archived.length) with
      | (fs', some ap) =>
        .ok { s with fs := fs',
                     archived := s.archived ++ [ap],
                     persists := s.persists + 1 }
      | (fs', none) => .ok { s with fs := fs' }
  else .ok s

/-- `_download_file(url, dest, cfg)` followed by the success bookkeeping;
the fetch is issued (logged) and then either raises or writes `dest`. -/
def fetchPhase (env : DlEnv) (it : PlanItem) (s1 : DlState) : DlState :=
  let s2 := { s1 with fetchLog := s1.fetchLog ++ [it] }
  match env.fetchOutcome it with
  | .error e =>
    { s2 with failed := s2.failed ++ [mkFailure it e],
              persists := s2.persists + 1 }
  | .ok content =>
    { s2 with fs := dictInsert s2.fs (destOf env it) content,
              downloaded := s2.downloaded ++ [destOf env it],
              alreadyDone := s2.alreadyDone ++ [it.filename],
              persists := s2.persists + 1 }

/-- One iteration of the `for kind, slug, filename, url in pbar:` loop of
`download_missing_and_changed`: skip check, then `try` archive + fetch,
`except` records a failure and continues. -/
def stepItem (env : DlEnv) (s : DlState) (it : PlanItem) : DlState :=
  if it.filename ∈ s.alreadyDone then s
  else
    let sp := notSkippedState s it
    match archPhase env sp it with
    | .error e =>
      { sp with failed := sp.failed ++ [mkFailure it e],
                persists := sp.persists + 1 }
    | .ok s1 => fetchPhase env it s1

/-- The downloader loop over the (possibly truncated) plan. -/
def runPlan (env : DlEnv) (s : DlState) (plan : List PlanItem) : DlState :=
  plan.foldl (stepItem env) s

/-- Resume state loaded from the checkpoint:
`already_done = {Path(p).name for p in results.get("downloaded", [])}`. -/
def initState (cp : Checkpoint) (fs0 : List (String × String)) : DlState :=
  { fs := fs0, downloaded := cp.downloaded, archived := cp.archived,
    failed := cp.failed, alreadyDone := cp.downloaded.map pathName,
    fetchLog := [], processedLog := [], persists := 0 }

/-- `download_missing_and_changed` run against an explicit plan (the code
builds the plan with `build_download_plan` and truncates it with
`plan[:max_items]`). -/
def runDownloader (env : DlEnv) (cp : Checkpoint) (fs0 : List (String × String))
    (plan : List PlanItem) (maxItems : Option Nat) : DlState :=
  runPlan env (initState cp fs0)
    (match maxItems with
     | some n => plan.take n
     | none => plan)

/-- `build_download_plan(delta)`: missing first then changed, keeping only
entries with truthy filename, url and slug. -/
def buildDownloadPlan (delta : Delta) : List PlanItem :=
  (delta.missing.filterMap fun m =>
    match m.pdf_url, m.slug with
    | some u, some sl =>
      if m.filename ≠ "" ∧ u ≠ "" ∧ sl ≠ "" then
        some ⟨"missing", sl, m.filename, u⟩
      else none
    | _, _ => none)
  ++ (delta.changed.filterMap fun c =>
    match c.pdf_url with
    | some u =>
      if c.filename ≠ "" ∧ u ≠ "" ∧ c.slug ≠ "" then
        some ⟨"changed", c.slug, c.filename, u⟩
      else none
    | none => none)

/-- `download_missing_and_changed(delta=..., ...)`. -/
def downloadMissingAndChanged (env : DlEnv) (delta : Delta) (cp : Checkpoint)
    (fs0 : List (String × String)) (maxItems : Option Nat) : DlState :=
  runDownloader env cp fs0 (buildDownloadPlan delta) maxItems

theorem stepItem_skip (env : DlEnv) (s : DlState) (it : PlanItem)
    (h : it.filename ∈ s.alreadyDone) : stepItem env s it = s := by
  unfold stepItem
  rw [if_pos h]

theorem archPhase_ok_fields (env : DlEnv) (s : DlState) (it : PlanItem)
    (s1 : DlState) (h : archPhase env s it = .ok s1) :
    s1.downloaded = s.downloaded ∧ s1.failed = s.failed ∧
    s1.alreadyDone = s.alreadyDone ∧ s1.fetchLog = s.fetchLog ∧
    s1.processedLog = s.processedLog := by
  unfold archPhase at h
  split at h
  · cases har : env.archiveRaise it with
    | some e => rw [har] at h; cases h
    | none =>
      rw [har] at h
      rcases hae : archiveExisting s.fs (destOf env it) env.archiveDir it.slug
          (env.ts s.archived.length) with ⟨fs', apo⟩
      rw [hae] at h
      cases apo with
      | some ap =>
        injection h with h2
        subst h2
        exact ⟨rfl, rfl, rfl, rfl, rfl⟩
      | none =>
        injection h with h2
        subst h2
        exact ⟨rfl, rfl, rfl, rfl, rfl⟩
  · injection h with h2
    subst h2
    exact ⟨rfl, rfl, rfl, rfl, rfl⟩

theorem stepItem_processedLog_not_done (env : DlEnv) (s : DlState)
    (it : PlanItem) (h : it.filename ∉ s.alreadyDone) :
    (stepItem env s it).processedLog = s.processedLog ++ [it] := by
  unfold stepItem
  rw [if_neg h]
  simp only
  cases ha : archPhase env (notSkippedState s it) it with
  | error e => simp [notSkippedState]
  | ok s1 =>
    have hf := archPhase_ok_fields _ _ _ _ ha
    unfold fetchPhase
    cases ho : env.fetchOutcome it <;>
      simp [hf.2.2.2.2, notSkippedState]

theorem stepItem_alreadyDone_mono (env : DlEnv) (s : DlState) (it : PlanItem) :
    ∃ l, (stepItem env s it).alreadyDone = s.alreadyDone ++ l := by
  by_cases h : it.filename ∈ s.alreadyDone
  · exact ⟨[], by rw [stepItem_skip env s it h]; simp⟩
  · unfold stepItem
    rw [if_neg h]
    simp only
    cases ha : archPhase env (notSkippedState s it) it with
    | error e => exact ⟨[], by simp [notSkippedState]⟩
    | ok s1 =>
      have hf := archPhase_ok_fields _ _ _ _ ha
      unfold fetchPhase
      cases ho : env.fetchOutcome it with
      | error e =>
        exact ⟨[], by simp [hf.2.2.1, notSkippedState]⟩
      | ok c =>
        exact ⟨[it.filename], by simp [hf.2.2.1, notSkippedState]⟩

theorem stepItem_fetchLog_fetched_not_done (env : DlEnv) (s : DlState)
    (it : PlanItem) :
    ∀ x ∈ (stepItem env s it).fetchLog,
      x ∈ s.fetchLog ∨ (x = it ∧ it.filename ∉ s.alreadyDone) := by
  intro x hx
  by_cases h : it.filename ∈ s.alreadyDone
  · rw [stepItem_skip env s it h] at hx
    exact Or.inl hx
  · unfold stepItem at hx
    rw [if_neg h] at hx
    simp only at hx
    revert hx
    cases ha : archPhase env (notSkippedState s it) it with
    | error e =>
      intro hx
      exact Or.inl (by simpa [notSkippedState] using hx)
    | ok s1 =>
      have hf := archPhase_ok_fields _ _ _ _ ha
      unfold fetchPhase
      cases ho : env.fetchOutcome it <;>
      · intro hx
        simp only [hf.2.2.2.1, notSkippedState] at hx
        rcases List.mem_append.mp hx with h1 | h1
        · exact Or.inl h1
        · exact Or.inr ⟨List.mem_singleton.mp h1, h⟩

theorem runPlan_cons (env : DlEnv) (s : DlState) (it : PlanItem)
    (plan : List PlanItem) :
    runPlan env s (it :: plan) = runPlan env (stepItem env s it) plan := rfl

theorem runPlan_alreadyDone_mono (env : DlEnv) (plan : List PlanItem) :
    ∀ (s : DlState) (fn : String), fn ∈ s.alreadyDone →
      fn ∈ (runPlan env s plan).alreadyDone := by
  induction plan with
  | nil => intro s fn h; exact h
  | cons j t ih =>
    intro s fn h
    rw [runPlan_cons]
    obtain ⟨l, hl⟩ := stepItem_alreadyDone_mono env s j
    exact ih _ fn (by rw [hl]; exact List.mem_append_left _ h)

theorem stepItem_processedLog_mono (env : DlEnv) (s : DlState) (it : PlanItem) :
    ∃ l, (stepItem env s it).processedLog = s.processedLog ++ l := by
  by_cases h : it.filename ∈ s.alreadyDone
  · exact ⟨[], by rw [stepItem_skip env s it h]; simp⟩
  · exact ⟨[it], stepItem_processedLog_not_done env s it h⟩

theorem runPlan_processedLog_mono (env : DlEnv) (plan : List PlanItem) :
    ∀ (s : DlState) (x : PlanItem), x ∈ s.processedLog →
      x ∈ (runPlan env s plan).processedLog := by
  induction plan with
  | nil => intro s x h; exact h
  | cons j t ih =>
    intro s x h
    rw [runPlan_cons]
    obtain ⟨l, hl⟩ := stepItem_processedLog_mono env s j
    exact ih _ x (by rw [hl]; exact List.mem_append_left _ h)

theorem runPlan_no_fetch (env : DlEnv) (plan : List PlanItem) :
    ∀ (s : DlState) (it : PlanItem), it.filename ∈ s.alreadyDone →
      it ∉ s.fetchLog → it ∉ (runPlan env s plan).fetchLog := by
  induction plan with
  | nil => intro s it _ hf; exact hf
  | cons j t ih =>
    intro s it h hf
    rw [runPlan_cons]
    apply ih (stepItem env s j) it
    · obtain ⟨l, hl⟩ := stepItem_alreadyDone_mono env s j
      rw [hl]
      exact List.mem_append_left _ h
    · intro hx
      rcases stepItem_fetchLog_fetched_not_done env s j it hx with h1 | ⟨heq, h2⟩
      · exact hf h1
      · exact h2 (heq ▸ h)

theorem runPlan_processed_of_mem (env : DlEnv) (plan : List PlanItem) :
    ∀ (s : DlState) (it : PlanItem), it ∈ plan →
      it.filename ∉ (runPlan env s plan).alreadyDone →
      it ∈ (runPlan env s plan).processedLog := by
  induction plan with
  | nil => intro s it h; cases h
  | cons j t ih =>
    intro s it hmem hnd
    rw [runPlan_cons] at hnd ⊢
    rcases List.mem_cons.mp hmem with rfl | hmem'
    · by_cases hsk : it.filename ∈ s.alreadyDone
      · exfalso
        apply hnd
        apply runPlan_alreadyDone_mono env t (stepItem env s it)
        obtain ⟨l, hl⟩ := stepItem_alreadyDone_mono env s it
        rw [hl]
        exact List.mem_append_left _ hsk
      · apply runPlan_processedLog_mono env t (stepItem env s it)
        rw [stepItem_processedLog_not_done env s it hsk]
        exact List.mem_append_right _ (by simp)
    · exact ih (stepItem env s j) it hmem' hnd

/-- **C4.**  An item whose filename is already recorded as downloaded is
skipped entirely: the per-item step is the identity on the whole state
(destination file, archive directory and checkpoint untouched, nothing
logged), and over a full `download_missing_and_changed` run no network
fetch is ever issued for such an item. -/
theorem C4_checkpoint_skip (env : DlEnv) :
    (∀ (s : DlState) (it : PlanItem), it.filename ∈ s.alreadyDone →
        stepItem env s it = s)
    ∧ (∀ (delta : Delta) (cp : Checkpoint) (fs0 : List (String × String))
        (maxItems : Option Nat) (it : PlanItem),
        it.filename ∈ cp.downloaded.map pathName →
        it ∉ (downloadMissingAndChanged env delta cp fs0 maxItems).fetchLog) := by
  constructor
  · exact fun s it h => stepItem_skip env s it h
  · intro delta cp fs0 maxItems it h
    unfold downloadMissingAndChanged runDownloader
    apply runPlan_no_fetch
    · exact h
    · simp [initState]

def envW : DlEnv :=
  { eatDir := "eat", archiveDir := "eat/archive", archiveChanged := true,
    archiveRaise := fun _ => none,
    fetchOutcome := fun _ => .error "404 not found",
    ts := fun _ => "20240101T000000Z" }

/-- Witness for C4: a checkpoint already lists `/old/dir/x.pdf`, so the
item for `x.pdf` triggers no fetch. -/
theorem C4_checkpoint_skip_witness :
    (⟨"missing", "s1", "x.pdf", "https://h/x.pdf"⟩ : PlanItem) ∉
      (downloadMissingAndChanged envW
        ⟨{ remote := 1, lcl := 0, missing := 1, changed := 0, orphaned := 0 },
          [⟨"x.pdf", some "s1", some "https://h/x.pdf"⟩], [], []⟩
        ⟨["/old/dir/x.pdf"], [], []⟩ [] none).fetchLog :=
  (C4_checkpoint_skip envW).2
    ⟨{ remote := 1, lcl := 0, missing := 1, changed := 0, orphaned := 0 },
      [⟨"x.pdf", some "s1", some "https://h/x.pdf"⟩], [], []⟩
    ⟨["/old/dir/x.pdf"], [], []⟩ [] none
    ⟨"missing", "s1", "x.pdf", "https://h/x.pdf"⟩ (by decide)

/-- The exception raised while handling a (non-skipped) item during its
archive or fetch step, if any: the archive move's exception, else the
download's exception after its internal retries. -/
def stepFailure (env : DlEnv) (s : DlState) (it : PlanItem) : Option String :=
  match archPhase env (notSkippedState s it) it with
  | .error e => some e
  | .ok _ =>
    match env.fetchOutcome it with
    | .error e => some e
    | .ok _ => none

theorem archPhase_ok_persists (env : DlEnv) (s : DlState) (it : PlanItem)
    (s1 : DlState) (h : archPhase env s it = .ok s1) :
    s.persists ≤ s1.persists := by
  unfold archPhase at h
  split at h
  · cases har : env.archiveRaise it with
    | some e => rw [har] at h; cases h
    | none =>
      rw [har] at h
      rcases hae : archiveExisting s.fs (destOf env it) env.archiveDir it.slug
          (env.ts s.archived.length) with ⟨fs', apo⟩
      rw [hae] at h
      cases apo with
      | some ap =>
        injection h with h2
        subst h2
        exact Nat.le_succ _
      | none =>
        injection h with h2
        subst h2
        exact Nat.le_refl _
  · injection h with h2
    subst h2
    exact Nat.le_refl _

/-- **C5.**  For every plan item, an exception during its archive or fetch
step makes the step append exactly one failure record carrying the item's
kind, id (slug), filename, url and error text, persist the checkpoint
(`persists` strictly grows), and touch neither the downloaded list nor the
resume set; and over a whole run every plan item is either processed or
skipped because its filename is in the resume set — an earlier item's
failure (which never extends the resume set) cannot prevent a later item
from being attempted. -/
theorem C5_failure_recorded_run_continues (env : DlEnv) :
    (∀ (s : DlState) (it : PlanItem) (e : String),
      it.filename ∉ s.alreadyDone → stepFailure env s it = some e →
      (stepItem env s it).failed = s.failed ++ [mkFailure it e]
      ∧ (stepItem env s it).downloaded = s.downloaded
      ∧ (stepItem env s it).alreadyDone = s.alreadyDone
      ∧ s.persists < (stepItem env s it).persists)
    ∧ (∀ (plan : List PlanItem) (s : DlState) (it : PlanItem), it ∈ plan →
        it.filename ∉ (runPlan env s plan).alreadyDone →
        it ∈ (runPlan env s plan).processedLog) := by
  constructor
  · intro s it e hnd hfail
    unfold stepFailure at hfail
    unfold stepItem
    rw [if_neg hnd]
    simp only
    cases ha : archPhase env (notSkippedState s it) it with
    | error e' =>
      rw [ha] at hfail
      obtain rfl : e' = e := Option.some.inj hfail
      refine ⟨?_, rfl, rfl, ?_⟩
      · simp [notSkippedState]
      · simp [notSkippedState]
    | ok s1 =>
      rw [ha] at hfail
      have hf := archPhase_ok_fields _ _ _ _ ha
      have hp := archPhase_ok_persists _ _ _ _ ha
      unfold fetchPhase
      cases ho : env.fetchOutcome it with
      | error e' =>
        rw [ho] at hfail
        obtain rfl : e' = e := Option.some.inj hfail
        refine ⟨?_, ?_, ?_, ?_⟩
        · simp only
          rw [hf.2.1]
          simp [notSkippedState]
        · simp only
          rw [hf.1]
          simp [notSkippedState]
        · simp only
          rw [hf.2.2.1]
          simp [notSkippedState]
        · simp only
          have : s.persists ≤ s1.persists := by
            simpa [notSkippedState] using hp
          omega
      | ok c =>
        rw [ho] at hfail
        cases hfail
  · exact fun plan s it h1 h2 => runPlan_processed_of_mem env plan s it h1 h2

/-- Witness for C5: a fetch failure on a fresh state appends exactly the
failure record and leaves downloads and the resume set untouched. -/
theorem C5_failure_recorded_run_continues_witness :
    (stepItem envW (initState ⟨[], [], []⟩ [])
        ⟨"missing", "s1", "x.pdf", "https://h/x.pdf"⟩).failed =
      (initState ⟨[], [], []⟩ []).failed ++
        [mkFailure ⟨"missing", "s1", "x.pdf", "https://h/x.pdf"⟩ "404 not found"]
    ∧ (stepItem envW (initState ⟨[], [], []⟩ [])
        ⟨"missing", "s1", "x.pdf", "https://h/x.pdf"⟩).downloaded =
      (initState ⟨[], [], []⟩ []).downloaded
    ∧ (stepItem envW (initState ⟨[], [], []⟩ [])
        ⟨"missing", "s1", "x.pdf", "https://h/x.pdf"⟩).alreadyDone =
      (initState ⟨[], [], []⟩ []).alreadyDone
    ∧ (initState ⟨[], [], []⟩ []).persists <
      (stepItem envW (initState ⟨[], [], []⟩ [])
        ⟨"missing", "s1", "x.pdf", "https://h/x.pdf"⟩).persists :=
  (C5_failure_recorded_run_continues envW).1 (initState ⟨[], [], []⟩ [])
    ⟨"missing", "s1", "x.pdf", "https://h/x.pdf"⟩ "404 not found"
    (by decide) (by decide)

/-- **C10.**  The resume check compares an item's filename against the
*basenames* of the paths in the checkpoint's downloaded list (`Path(p).name`),
not the full paths: any recorded path with a matching basename — whatever
directory it lies in — makes the run skip the item completely (the run is a
no-op on the state), and when no recorded basename matches, the item is
processed. -/
theorem C10_resume_uses_basenames (env : DlEnv) (cp : Checkpoint)
    (fs0 : List (String × String)) (it : PlanItem) :
    ((∃ p ∈ cp.downloaded, pathName p = it.filename) →
        runDownloader env cp fs0 [it] none = initState cp fs0)
    ∧ ((¬ ∃ p ∈ cp.downloaded, pathName p = it.filename) →
        (runDownloader env cp fs0 [it] none).processedLog = [it]) := by
  have hmm : it.filename ∈ (initState cp fs0).alreadyDone ↔
      ∃ p ∈ cp.downloaded, pathName p = it.filename := by
    simp [initState, List.mem_map]
  constructor
  · intro h
    show stepItem env (initState cp fs0) it = initState cp fs0
    exact stepItem_skip env _ it (hmm.mpr h)
  · intro h
    show (stepItem env (initState cp fs0) it).processedLog = [it]
    rw [stepItem_processedLog_not_done env _ it (fun hc => h (hmm.mp hc))]
    simp [initState]

/-- Witness for C10: the checkpoint records `/other/dir/x.pdf`; an item for
`x.pdf` destined for a different directory (`eat/`) is still skipped and
the run changes nothing. -/
theorem C10_resume_uses_basenames_witness :
    runDownloader envW ⟨["/other/dir/x.pdf"], [], []⟩ []
        [⟨"missing", "s1", "x.pdf", "https://h/x.pdf"⟩] none =
      initState ⟨["/other/dir/x.pdf"], [], []⟩ [] :=
  (C10_resume_uses_basenames envW ⟨["/other/dir/x.pdf"], [], []⟩ []
    ⟨"missing", "s1", "x.pdf", "https://h/x.pdf"⟩).1
    ⟨"/other/dir/x.pdf", by decide, by decide⟩

theorem find?_map_keyfix {β : Type} (m : List (String × β)) (k k' : String)
    (v : β) (h : k' ≠ k) :
    (m.map (fun p => if p.1 = k then (k, v) else p)).find?
        (fun p => p.1 = k') =
      m.find? (fun p => p.1 = k') := by
  induction m with
  | nil => rfl
  | cons q t ih =>
    simp only [List.map_cons]
    by_cases hq : q.1 = k
    · rw [if_pos hq]
      rw [List.find?_cons_of_neg _ (by simp [Ne.symm h]),
        List.find?_cons_of_neg _ (by simp [hq, Ne.symm h])]
      exact ih
    · rw [if_neg hq]
      by_cases hq' : q.1 = k'
      · rw [List.find?_cons_of_pos _ (by simp [hq']),
          List.find?_cons_of_pos _ (by simp [hq'])]
      · rw [List.find?_cons_of_neg _ (by simp [hq']),
          List.find?_cons_of_neg _ (by simp [hq'])]
        exact ih

theorem dictGet_dictInsert_ne {β : Type} (m : List (String × β))
    (k k' : String) (v : β) (h : k' ≠ k) :
    dictGet (dictInsert m k v) k' = dictGet m k' := by
  unfold dictInsert dictGet
  by_cases hc : m.any (fun p => p.1 = k)
  · rw [if_pos hc, find?_map_keyfix m k k' v h]
  · rw [if_neg hc, List.find?_append]
    cases hf : m.find? (fun p => p.1 = k') with
    | some q => simp
    | none =>
      simp only [Option.none_or]
      rw [List.find?_cons_of_neg _ (by simp [Ne.symm h])]
      simp [List.find?]

theorem dictGet_dictInsert_self {β : Type} (m : List (String × β))
    (k : String) (v : β) :
    dictGet (dictInsert m k v) k = some v := by
  unfold dictInsert dictGet
  by_cases hc : m.any (fun p => p.1 = k)
  · rw [if_pos hc]
    suffices hfind : (m.map (fun p => if p.1 = k then (k, v) else p)).find?
        (fun p => p.1 = k) = some (k, v) by
      rw [hfind]; rfl
    induction m with
    | nil => simp at hc
    | cons q t ih =>
      simp only [List.map_cons]
      by_cases hq : q.1 = k
      · rw [if_pos hq, List.find?_cons_of_pos _ (by simp)]
      · rw [if_neg hq, List.find?_cons_of_neg _ (by simp [hq])]
        apply ih
        simpa [hq] using hc
  · rw [if_neg hc, List.find?_append]
    have hnone : m.find? (fun p => p.1 = k) = none := by
      rw [List.find?_eq_none]
      intro x hx
      simp only [List.any_eq_true, decide_eq_true_eq] at hc
      simp only [decide_eq_true_eq]
      exact fun hxk => hc ⟨x, hx, hxk⟩
    rw [hnone]
    simp [List.find?]

theorem dictGet_dictRemove_self {β : Type} (m : List (String × β)) (k : String) :
    dictGet (dictRemove m k) k = none := by
  unfold dictRemove dictGet
  suffices hfind : (m.filter (fun p => p.1 ≠ k)).find? (fun p => p.1 = k) = none by
    rw [hfind]; rfl
  rw [List.find?_eq_none]
  intro x hx
  have h2 := (List.mem_filter.mp hx).2
  simp only [ne_eq, decide_not, Bool.not_eq_true', decide_eq_false_iff_not] at h2
  simp only [decide_eq_true_eq]
  exact h2

theorem archivedName_ts_inj (n slug ts ts2 : String)
    (h : archivedName n slug ts = archivedName n slug ts2) : ts = ts2 := by
  unfold archivedName at h
  have hd := congrArg String.data h
  simp only [String.data_append] at hd
  exact String.ext (List.append_cancel_left (List.append_cancel_right hd))

/-- **C7 (amended).**  Archiving a superseded file is a rename: the
original path disappears and its content reappears at the single archive
path `archiveDir/stem__id__archived_ts.ext` built from the original stem,
the item's id (slug), the UTC timestamp and the original extension; and the
archived names of repeated archives of the same original filename are
distinct *whenever the timestamps of the two operations differ* —
`_safe_ts()` has one-second resolution, so the code itself cannot guarantee
distinct timestamps (see the counterexample). -/
theorem C7_archive_rename (fs : List (String × String))
    (localPath archiveDir slug ts content : String)
    (hc : dictGet fs localPath = some content)
    (hne : archiveDir ++ "/" ++ archivedName (pathName localPath) slug ts ≠
      localPath) :
    archiveExisting fs localPath archiveDir slug ts =
      (dictInsert (dictRemove fs localPath)
          (archiveDir ++ "/" ++ archivedName (pathName localPath) slug ts)
          content,
        some (archiveDir ++ "/" ++ archivedName (pathName localPath) slug ts))
    ∧ dictGet (archiveExisting fs localPath archiveDir slug ts).1 localPath =
        none
    ∧ dictGet (archiveExisting fs localPath archiveDir slug ts).1
        (archiveDir ++ "/" ++ archivedName (pathName localPath) slug ts) =
        some content
    ∧ archivedName (pathName localPath) slug ts =
        pyStem (pathName localPath) ++ "__" ++ slug ++ "__archived_" ++ ts ++
          pySuffix (pathName localPath)
    ∧ (∀ ts2, ts ≠ ts2 →
        archivedName (pathName localPath) slug ts ≠
          archivedName (pathName localPath) slug ts2) := by
  have he : archiveExisting fs localPath archiveDir slug ts =
      (dictInsert (dictRemove fs localPath)
          (archiveDir ++ "/" ++ archivedName (pathName localPath) slug ts)
          content,
        some (archiveDir ++ "/" ++ archivedName (pathName localPath) slug ts)) := by
    unfold archiveExisting
    rw [hc]
  refine ⟨he, ?_, ?_, rfl, ?_⟩
  · rw [he]
    exact (dictGet_dictInsert_ne _ _ _ _ (Ne.symm hne)).trans
      (dictGet_dictRemove_self fs localPath)
  · rw [he]
    exact dictGet_dictInsert_self _ _ _
  · intro ts2 hts heq
    exact hts (archivedName_ts_inj _ _ _ _ heq)

/-- Counterexample to C7 as stated: two archives of the same original
filename within the same `_safe_ts()` second produce the *same* archived
name — the first archived copy is silently overwritten by the second
(`shutil.move` onto an existing path), so archived names are not "always
distinct". -/
theorem C7_archive_rename_cex :
    (archiveExisting [("eat/x.pdf", "c1")] "eat/x.pdf" "eat/archive" "s1"
        "20240101T000000Z").2 =
      some "eat/archive/x__s1__archived_20240101T000000Z.pdf"
    ∧ (archiveExisting
        (dictInsert (archiveExisting [("eat/x.pdf", "c1")] "eat/x.pdf"
          "eat/archive" "s1" "20240101T000000Z").1 "eat/x.pdf" "c2")
        "eat/x.pdf" "eat/archive" "s1" "20240101T000000Z").2 =
      some "eat/archive/x__s1__archived_20240101T000000Z.pdf"
    ∧ dictGet (archiveExisting
        (dictInsert (archiveExisting [("eat/x.pdf", "c1")] "eat/x.pdf"
          "eat/archive" "s1" "20240101T000000Z").1 "eat/x.pdf" "c2")
        "eat/x.pdf" "eat/archive" "s1" "20240101T000000Z").1
        "eat/archive/x__s1__archived_20240101T000000Z.pdf" = some "c2" := by
  decide

/-- Witness for C7: a concrete archive operation renames `d/x.pdf` into
`arch/x__s1__archived_T1.pdf`. -/
theorem C7_archive_rename_witness :
    archiveExisting [("d/x.pdf", "c1")] "d/x.pdf" "arch" "s1" "T1" =
      (dictInsert (dictRemove [("d/x.pdf", "c1")] "d/x.pdf")
          ("arch" ++ "/" ++ archivedName (pathName "d/x.pdf") "s1" "T1") "c1",
        some ("arch" ++ "/" ++ archivedName (pathName "d/x.pdf") "s1" "T1"))
    ∧ dictGet (archiveExisting [("d/x.pdf", "c1")] "d/x.pdf" "arch" "s1"
        "T1").1 "d/x.pdf" = none
    ∧ dictGet (archiveExisting [("d/x.pdf", "c1")] "d/x.pdf" "arch" "s1"
        "T1").1 ("arch" ++ "/" ++ archivedName (pathName "d/x.pdf") "s1" "T1") =
        some "c1"
    ∧ archivedName (pathName "d/x.pdf") "s1" "T1" =
        pyStem (pathName "d/x.pdf") ++ "__" ++ "s1" ++ "__archived_" ++ "T1" ++
          pySuffix (pathName "d/x.pdf")
    ∧ (∀ ts2, "T1" ≠ ts2 →
        archivedName (pathName "d/x.pdf") "s1" "T1" ≠
          archivedName (pathName "d/x.pdf") "s1" ts2) :=
  C7_archive_rename [("d/x.pdf", "c1")] "d/x.pdf" "arch" "s1" "T1" "c1"
    (by decide) (by decide)

/-! ## Remote indexer (`eat_remote_index.py`)

Content-API documents are JSON-like values, modelled with an explicit list
spine so that all recursions are structural.  String helpers
(`in`/`startswith`/`lower`/`urlparse`/`urljoin`) are implemented by
structural recursion on character lists; `urljoinGOVUK` and `urlPath` model
the `urllib.parse` behaviour for the URL shapes these documents produce
(absolute, scheme-relative and plain relative references against the
empty-path base `https://www.gov.uk`). -/

mutual

inductive JsonV where
  | str (s : String)
  | num (n : Int)
  | boolean (b : Bool)
  | null
  | obj (fields : JFields)
  | arr (elems : JElems)

inductive JFields where
  | nil
  | cons (key : String) (val : JsonV) (rest : JFields)

inductive JElems where
  | nil
  | cons (val : JsonV) (rest : JElems)

end

def isPrefixChars : List Char → List Char → Bool
  | [], _ => true
  | _ :: _, [] => false
  | a :: as, b :: bs => a = b && isPrefixChars as bs

def hasSubChars (needle : List Char) : List Char → Bool
  | [] => decide (needle = [])
  | a :: rest => isPrefixChars needle (a :: rest) || hasSubChars needle rest

/-- Python `needle in hay` on strings. -/
def strContains (hay needle : String) : Bool :=
  hasSubChars needle.toList hay.toList

/-- Python `s.startswith(pre)`. -/
def strStartsWith (s pre : String) : Bool :=
  isPrefixChars pre.toList s.toList

/-- Python `s.lower()` (ASCII case folding). -/
def lowerStr (s : String) : String :=
  String.mk (s.toList.map Char.toLower)

def GOVUK : String := "https://www.gov.uk"

/-- Modelled subset of `urllib.parse.urljoin(GOVUK, s)` for the reference
shapes these documents produce: scheme-relative (`//…`), absolute-path
(`/…`), and plain relative references (resolved at the root, since the
base URL has an empty path). -/
def urljoinGOVUK (s : String) : String :=
  if strStartsWith s "//" then "https:" ++ s
  else if strStartsWith s "/" then GOVUK ++ s
  else GOVUK ++ "/" ++ s

def takeUntilChar (c : Char) : List Char → List Char
  | [] => []
  | a :: rest => if a = c then [] else a :: takeUntilChar c rest

/-- The suffix starting at the first occurrence of `c` (or `[]`). -/
def dropUntilChar (c : Char) : List Char → List Char
  | [] => []
  | a :: rest => if a = c then a :: rest else dropUntilChar c rest

/-- Split at the first occurrence of a substring: the part before it and
the part after it. -/
def splitAtSub (needle : List Char) : List Char → Option (List Char × List Char)
  | [] => if needle = [] then some ([], []) else none
  | a :: rest =>
    if isPrefixChars needle (a :: rest) then
      some ([], (a :: rest).drop needle.length)
    else
      match splitAtSub needle rest with
      | some (before, after) => some (a :: before, after)
      | none => none

/-- `urlparse(u).path`: strip the fragment and query, then — when a
`scheme://netloc` prefix is present — the path is the part from the first
`/` after the authority; without a scheme the remainder is taken as the
path (modelled subset of `urllib.parse`). -/
def urlPath (u : String) : String :=
  let l := takeUntilChar '?' (takeUntilChar '#' u.toList)
  match splitAtSub "://".toList l with
  | none => String.mk l
  | some (_, rest) => String.mk (dropUntilChar '/' rest)

def rstripChar (c : Char) (s : String) : String :=
  String.mk ((s.toList.reverse.dropWhile (fun a => a = c)).reverse)

def stripChar (c : Char) (s : String) : String :=
  String.mk
    (((s.toList.dropWhile (fun a => a = c)).reverse.dropWhile
      (fun a => a = c)).reverse)

def lastAfterSubFuel (needle : List Char) : Nat → List Char → List Char
  | 0, l => l
  | fuel + 1, l =>
    match splitAtSub needle l with
    | none => l
    | some (_, after) => lastAfterSubFuel needle fuel after

/-- Python `l.split(marker)[-1]` (for a non-empty marker). -/
def lastAfterSub (needle l : List Char) : List Char :=
  lastAfterSubFuel needle l.length l

/-- `_slug_from_decision_page(url)`. -/
def slugFromDecisionPage (url : String) : String :=
  let path := rstripChar '/' (urlPath url)
  stripChar '/'
    (String.mk
      (lastAfterSub "/employment-appeal-tribunal-decisions/".toList path.toList))

mutual

/-- The `walk` generator of `_pick_pdf_from_content_api`: dict values that
are dicts or lists are recursed into, string dict values are yielded; list
elements are recursed (note: a string directly inside a list falls through
both `isinstance` branches of `walk` and yields nothing, exactly as in the
code); scalars are skipped. -/
def walk : JsonV → List String
  | .obj fs => walkFields fs
  | .arr es => walkElems es
  | _ => []

def walkFields : JFields → List String
  | .nil => []
  | .cons _ v rest =>
    (match v with
     | .obj fs => walk (.obj fs)
     | .arr es => walk (.arr es)
     | .str s => [s]
     | _ => []) ++ walkFields rest

def walkElems : JElems → List String
  | .nil => []
  | .cons v rest => walk v ++ walkElems rest

end

def containsPdf (s : String) : Bool :=
  strContains (lowerStr s) ".pdf"

/-- `_pick_pdf_from_content_api(content)`: first yielded string containing
`.pdf` (case-insensitive), absolute if it has an http(s) scheme, else
joined against the site root. -/
def pickPdf (content : JsonV) : Option String :=
  ((walk content).find? (fun s => containsPdf s)).map
    (fun s =>
      if strStartsWith s "http://" || strStartsWith s "https://" then s
      else urljoinGOVUK s)

def jFieldsGet : JFields → String → Option JsonV
  | .nil, _ => none
  | .cons k v rest, key => if k = key then some v else jFieldsGet rest key

/-- `o.get(key)` restricted to string values (the fields `_build_one` reads
this way are strings in this API; non-string values are not modelled). -/
def jsonGetStr (o : JsonV) (key : String) : Option String :=
  match o with
  | .obj fs =>
    match jFieldsGet fs key with
    | some (.str s) => some s
    | _ => none
  | _ => none

/-- Python `s.strip()` (ASCII whitespace, structural recursion). -/
def pyStrip (s : String) : String :=
  String.mk
    (((s.toList.dropWhile Char.isWhitespace).reverse.dropWhile
      Char.isWhitespace).reverse)

/-- Python `a or b` on optional strings (`None` and `""` are falsy). -/
def pyOr (a b : Option String) : Option String :=
  match a with
  | some s => if s ≠ "" then some s else b
  | none => b

/-- `_safe_int(x)`. -/
def safeInt (x : Option String) : Option Int :=
  match x with
  | none => none
  | some s => if s = "" then none else s.toInt?

structure RemoteDecision where
  slug : String
  decision_page_url : String
  title : String
  decision_date : Option String
  published_date : Option String
  pdf_url : Option String
  pdf_filename : Option String
  pdf_etag : Option String
  pdf_last_modified : Option String
  pdf_content_length : Option Int
  head_error : Option String
deriving DecidableEq

/-- `_build_one(r)` from `build_remote_index_v2`: the Content API GET is an
oracle from URL to document, the HEAD probe an oracle from URL to response
(HEAD never raises, see C3, so a total oracle is faithful). -/
def buildOne (contentOf : String → JsonV) (headOf : String → HttpResponse)
    (doHead headOnlyAssets : Bool) (r : JsonV) :
    Option (String × RemoteDecision) :=
  match jsonGetStr r "link" with
  | none => none
  | some link =>
    if link = "" then none
    else
      let decisionUrl := urljoinGOVUK link
      let slug := slugFromDecisionPage decisionUrl
      let content := contentOf (urljoinGOVUK ("/api/content" ++ link))
      let title :=
        pyStrip ((pyOr (jsonGetStr content "title") (jsonGetStr r "title")).getD "")
      let published :=
        pyOr (jsonGetStr content "public_updated_at")
          (jsonGetStr r "public_timestamp")
      let pdfUrl := pickPdf content
      let pdfFilename := pdfUrl.map (fun u => pathName (urlPath u))
      let baseRec : RemoteDecision :=
        { slug := slug, decision_page_url := decisionUrl, title := title,
          decision_date := none, published_date := published,
          pdf_url := pdfUrl, pdf_filename := pdfFilename,
          pdf_etag := none, pdf_last_modified := none,
          pdf_content_length := none, head_error := none }
      match pdfUrl with
      | some u =>
        if doHead &&
            (!headOnlyAssets || strContains u "assets.publishing.service.gov.uk")
        then
          let h := headOf u
          some (slug,
            { baseRec with
                pdf_etag := dictGet h.headers "ETag",
                pdf_last_modified := dictGet h.headers "Last-Modified",
                pdf_content_length := safeInt (dictGet h.headers "Content-Length"),
                head_error := dictGet h.headers "x-head-error" })
        else some (slug, baseRec)
      | none => some (slug, baseRec)

/-- **C9 (amended).**  For every record the indexer builds, `pdf_filename`
is present iff `pdf_url` is present, and it is derived from the URL's path
(`Path(urlparse(u).path).name`); the derived name can be the *empty string*
(when the URL's path is empty, e.g. a `.pdf` match in the host or query),
so presence does not imply non-emptiness — see the counterexample. -/
theorem C9_pdf_filename_iff_url (contentOf : String → JsonV)
    (headOf : String → HttpResponse) (doHead headOnlyAssets : Bool)
    (r : JsonV) (slug : String) (rd : RemoteDecision)
    (h : buildOne contentOf headOf doHead headOnlyAssets r = some (slug, rd)) :
    (rd.pdf_filename.isSome ↔ rd.pdf_url.isSome)
    ∧ (∀ u, rd.pdf_url = some u → rd.pdf_filename = some (pathName (urlPath u)))
    ∧ (rd.pdf_url = none → rd.pdf_filename = none) := by
  unfold buildOne at h
  cases hl : jsonGetStr r "link" with
  | none => rw [hl] at h; cases h
  | some link =>
    rw [hl] at h
    simp only at h
    by_cases he : link = ""
    · rw [if_pos he] at h; cases h
    · rw [if_neg he] at h
      revert h
      cases hp : pickPdf (contentOf (urljoinGOVUK ("/api/content" ++ link))) with
      | none =>
        intro h
        injection h with h2
        rw [Prod.mk.injEq] at h2
        obtain ⟨rfl, rfl⟩ := h2
        simp
      | some u =>
        intro h
        simp only at h
        by_cases hc : (doHead &&
            (!headOnlyAssets ||
              strContains u "assets.publishing.service.gov.uk")) = true
        · rw [if_pos hc] at h
          injection h with h2
          rw [Prod.mk.injEq] at h2
          obtain ⟨rfl, rfl⟩ := h2
          simp
        · rw [if_neg hc] at h
          injection h with h2
          rw [Prod.mk.injEq] at h2
          obtain ⟨rfl, rfl⟩ := h2
          simp

/-- Counterexample to C9 as stated: a content document whose only `.pdf`
match is in the URL's *host* (`https://cex.pdf`) produces a record with a
`pdf_url` but an **empty** `pdf_filename` (`urlparse` path is `""`), so
"every record with a pdfUrl carries a non-empty pdfFilename" is false. -/
theorem C9_pdf_filename_iff_url_cex :
    buildOne
        (fun _ => JsonV.obj (JFields.cons "a" (JsonV.str "https://cex.pdf")
          JFields.nil))
        (fun _ => dummyHeadResponse "u" "") false true
        (JsonV.obj (JFields.cons "link"
          (JsonV.str "/employment-appeal-tribunal-decisions/a-b") JFields.nil)) =
      some ("a-b",
        { slug := "a-b",
          decision_page_url :=
            "https://www.gov.uk/employment-appeal-tribunal-decisions/a-b",
          title := "", decision_date := none, published_date := none,
          pdf_url := some "https://cex.pdf", pdf_filename := some "",
          pdf_etag := none, pdf_last_modified := none,
          pdf_content_length := none, head_error := none }) := by
  decide

/-- The record `_build_one` produces for a document carrying the asset URL
`https://h/media/f.pdf` (no HEAD probe). -/
def c9RecW : RemoteDecision :=
  { slug := "a-b",
    decision_page_url :=
      "https://www.gov.uk/employment-appeal-tribunal-decisions/a-b",
    title := "", decision_date := none, published_date := none,
    pdf_url := some "https://h/media/f.pdf", pdf_filename := some "f.pdf",
    pdf_etag := none, pdf_last_modified := none,
    pdf_content_length := none, head_error := none }

/-- Witness for C9: a document with a normal asset URL yields a record
whose `pdf_filename` is derived from the URL path and present iff the URL
is. -/
theorem C9_pdf_filename_iff_url_witness :
    (c9RecW.pdf_filename.isSome ↔ c9RecW.pdf_url.isSome)
    ∧ (∀ u, c9RecW.pdf_url = some u →
        c9RecW.pdf_filename = some (pathName (urlPath u)))
    ∧ (c9RecW.pdf_url = none → c9RecW.pdf_filename = none) :=
  C9_pdf_filename_iff_url
    (fun _ => JsonV.obj (JFields.cons "a" (JsonV.str "https://h/media/f.pdf")
      JFields.nil))
    (fun _ => dummyHeadResponse "u" "") false true
    (JsonV.obj (JFields.cons "link"
      (JsonV.str "/employment-appeal-tribunal-decisions/a-b") JFields.nil))
    "a-b" c9RecW (by decide)

/-! ### `build_remote_index_v2` pagination loop (C6)

The Search API page fetch is an oracle from start offset to payload; the
per-result work (`_build_one`, i.e. `buildOne` with its oracles) is a
parameter `proc`.  The fan-out is modelled faithfully to its timing:
`futures = [ex.submit(_build_one, r) for r in results]` submits *every*
task of the page — issuing its content GET (and optional HEAD) — before
any completion is examined and before any `max_items` check, and the
`return out` sits inside the `with ThreadPoolExecutor` block, whose exit
calls `shutdown(wait=True)`, so already-submitted fetches run to
completion even when the cap is reached mid-page.  Accordingly
`buildLoop` records one `fetchLog` entry per submitted task at submission
time, and `drainCompletions` then consumes completions one at a time
(completion order abstracted into the oracle's list order), checking the
cap only after each processed completion.  Ghost logs record the number
of processed items (`yielded`) at each task submission, each processed
completion, and each page fetch. -/

structure SearchPayload where
  results : List JsonV
  total : Option Int

structure PageOut where
  out : List (String × RemoteDecision)
  yielded : Nat
  procLog : List Nat
  stopped : Bool

structure BuildResult where
  out : List (String × RemoteDecision)
  procLog : List Nat
  fetchLog : List Nat
  pageLog : List Nat

/-- The `for fut in as_completed(futures):` loop (completions sequentialised
in list order): record the completed result in the catalog, bump `yielded`,
and return early once `yielded >= max_items`.  The per-item fetches were
already issued at submission time (see `buildLoop`), so this loop issues no
fetches of its own. -/
def drainCompletions (proc : JsonV → Option (String × RemoteDecision))
    (maxItems : Option Nat) :
    List JsonV → List (String × RemoteDecision) → Nat → List Nat → PageOut
  | [], out, yielded, procLog => ⟨out, yielded, procLog, false⟩
  | r :: rest, out, yielded, procLog =>
    let procLog' := procLog ++ [yielded]
    let out' :=
      match proc r with
      | some (slug, rd) => dictInsert out slug rd
      | none => out
    match maxItems with
    | some n =>
      if n ≤ yielded + 1 then ⟨out', yielded + 1, procLog', true⟩
      else drainCompletions proc maxItems rest out' (yielded + 1) procLog'
    | none => drainCompletions proc maxItems rest out' (yielded + 1) procLog'

/-- The `while True:` pagination loop of `build_remote_index_v2`; `fuel`
bounds the number of page fetches (the loop itself has no such bound).
On every non-empty page, one `fetchLog` entry per result is recorded
*before* the completions are drained: all the page's per-item fetches are
issued at submission, whatever the cap later decides. -/
def buildLoop (pages : Nat → SearchPayload)
    (proc : JsonV → Option (String × RemoteDecision)) (maxItems : Option Nat) :
    Nat → Nat → Nat → List (String × RemoteDecision) → List Nat → List Nat →
    List Nat → BuildResult
  | 0, _, _, out, procLog, fetchLog, pageLog => ⟨out, procLog, fetchLog, pageLog⟩
  | fuel + 1, start, yielded, out, procLog, fetchLog, pageLog =>
    let pageLog' := pageLog ++ [yielded]
    let payload := pages start
    match payload.results with
    | [] => ⟨out, procLog, fetchLog, pageLog'⟩
    | r :: rs =>
      let fetchLog' := fetchLog ++ (r :: rs).map (fun _ => yielded)
      match drainCompletions proc maxItems (r :: rs) out yielded procLog with
      | ⟨out', yielded', procLog', stopped⟩ =>
        if stopped then ⟨out', procLog', fetchLog', pageLog'⟩
        else
          let start' := start + (r :: rs).length
          match payload.total with
          | some t =>
            if t ≤ (start' : Int) then ⟨out', procLog', fetchLog', pageLog'⟩
            else buildLoop pages proc maxItems fuel start' yielded' out'
              procLog' fetchLog' pageLog'
          | none =>
            buildLoop pages proc maxItems fuel start' yielded' out' procLog'
              fetchLog' pageLog'

/-- `build_remote_index_v2(client, do_head=…, max_items=…)`. -/
def buildRemoteIndexV2 (pages : Nat → SearchPayload)
    (proc : JsonV → Option (String × RemoteDecision)) (maxItems : Option Nat)
    (fuel : Nat) : BuildResult :=
  buildLoop pages proc maxItems fuel 0 0 [] [] [] []

theorem dictInsert_length_le {β : Type} (m : List (String × β)) (k : String)
    (v : β) : (dictInsert m k v).length ≤ m.length + 1 := by
  unfold dictInsert
  by_cases h : m.any (fun p => p.1 = k)
  · rw [if_pos h]
    simp
  · rw [if_neg h]
    simp

theorem drainCompletions_inv (proc : JsonV → Option (String × RemoteDecision))
    (n : Nat) (results : List JsonV) :
    ∀ (out : List (String × RemoteDecision)) (yielded : Nat)
      (procLog : List Nat),
      out.length ≤ yielded → procLog.length = yielded → yielded < n →
      (∀ y ∈ procLog, y < n) →
      (drainCompletions proc (some n) results out yielded procLog).out.length ≤
          (drainCompletions proc (some n) results out yielded procLog).yielded
      ∧ (drainCompletions proc (some n) results out yielded
          procLog).procLog.length =
          (drainCompletions proc (some n) results out yielded procLog).yielded
      ∧ (drainCompletions proc (some n) results out yielded procLog).yielded ≤ n
      ∧ ((drainCompletions proc (some n) results out yielded
          procLog).stopped = false →
          (drainCompletions proc (some n) results out yielded procLog).yielded
            < n)
      ∧ (∀ y ∈ (drainCompletions proc (some n) results out yielded
          procLog).procLog, y < n) := by
  induction results with
  | nil =>
    intro out yielded procLog h1 h2 h3 h4
    exact ⟨h1, h2, Nat.le_of_lt h3, fun _ => h3, h4⟩
  | cons r rest ih =>
    intro out yielded procLog h1 h2 h3 h4
    have hlen : (match proc r with
        | some (slug, rd) => dictInsert out slug rd
        | none => out).length ≤ yielded + 1 := by
      cases hp : proc r with
      | some p =>
        calc (dictInsert out p.1 p.2).length ≤ out.length + 1 :=
              dictInsert_length_le out p.1 p.2
          _ ≤ yielded + 1 := Nat.add_le_add_right h1 1
      | none => exact Nat.le_succ_of_le h1
    have hlog : (procLog ++ [yielded]).length = yielded + 1 := by
      simp [h2]
    have hlogm : ∀ y ∈ procLog ++ [yielded], y < n := by
      intro y hy
      rcases List.mem_append.mp hy with hy1 | hy1
      · exact h4 y hy1
      · rw [List.mem_singleton.mp hy1]; exact h3
    simp only [drainCompletions]
    by_cases hstop : n ≤ yielded + 1
    · rw [if_pos hstop]
      refine ⟨?_, ?_, ?_, ?_, ?_⟩
      · exact hlen
      · exact hlog
      · exact Nat.succ_le_of_lt h3
      · intro hfalse; cases hfalse
      · exact hlogm
    · rw [if_neg hstop]
      exact ih _ (yielded + 1) (procLog ++ [yielded]) hlen hlog
        (Nat.lt_of_not_le hstop) hlogm

/-- The cap invariant: at most `n` catalog entries, at most `n` processed
completions, every completion processed and every page fetched while fewer
than `n` items had been processed, and every per-item task submitted during
a page begun before the cap (a task submitted then may still *execute* its
fetch after the cap is reached — see the counterexample). -/
def capOK (n : Nat) (r : BuildResult) : Prop :=
  r.out.length ≤ n ∧ r.procLog.length ≤ n ∧ (∀ y ∈ r.procLog, y < n) ∧
  (∀ y ∈ r.pageLog, y < n) ∧ (∀ y ∈ r.fetchLog, y < n)

theorem buildLoop_inv (pages : Nat → SearchPayload)
    (proc : JsonV → Option (String × RemoteDecision)) (n : Nat) :
    ∀ (fuel start yielded : Nat) (out : List (String × RemoteDecision))
      (procLog fetchLog pageLog : List Nat),
      out.length ≤ yielded → procLog.length = yielded → yielded < n →
      (∀ y ∈ procLog, y < n) → (∀ y ∈ pageLog, y < n) →
      (∀ y ∈ fetchLog, y < n) →
      capOK n (buildLoop pages proc (some n) fuel start yielded out procLog
        fetchLog pageLog) := by
  intro fuel
  induction fuel with
  | zero =>
    intro start yielded out procLog fetchLog pageLog h1 h2 h3 h4 h5 h6
    exact ⟨Nat.le_of_lt (Nat.lt_of_le_of_lt h1 h3),
      Nat.le_of_lt (Nat.lt_of_le_of_lt (Nat.le_of_eq h2) h3), h4, h5, h6⟩
  | succ f ih =>
    intro start yielded out procLog fetchLog pageLog h1 h2 h3 h4 h5 h6
    have h5' : ∀ y ∈ pageLog ++ [yielded], y < n := by
      intro y hy
      rcases List.mem_append.mp hy with hy1 | hy1
      · exact h5 y hy1
      · rw [List.mem_singleton.mp hy1]; exact h3
    simp only [buildLoop]
    cases hres : (pages start).results with
    | nil =>
      exact ⟨Nat.le_of_lt (Nat.lt_of_le_of_lt h1 h3),
        Nat.le_of_lt (Nat.lt_of_le_of_lt (Nat.le_of_eq h2) h3), h4, h5', h6⟩
    | cons r rs =>
      have h6' : ∀ y ∈ fetchLog ++ (r :: rs).map (fun _ => yielded), y < n := by
        intro y hy
        rcases List.mem_append.mp hy with hy1 | hy1
        · exact h6 y hy1
        · obtain ⟨_, _, rfl⟩ := List.mem_map.mp hy1
          exact h3
      have hp := drainCompletions_inv proc n (r :: rs) out yielded procLog
        h1 h2 h3 h4
      rcases hpp : drainCompletions proc (some n) (r :: rs) out yielded
        procLog with ⟨out', yielded', procLog', stopped⟩
      rw [hpp] at hp
      simp only at hp
      simp only
      rw [hpp]
      simp only
      cases stopped with
      | true =>
        rw [if_pos rfl]
        exact ⟨Nat.le_trans hp.1 hp.2.2.1, Nat.le_trans
          (Nat.le_of_eq hp.2.1) hp.2.2.1, hp.2.2.2.2, h5', h6'⟩
      | false =>
        rw [if_neg (by simp)]
        have hy' : yielded' < n := hp.2.2.2.1 rfl
        cases htot : (pages start).total with
        | some t =>
          simp only
          by_cases hst : t ≤ ((start + (r :: rs).length : Nat) : Int)
          · rw [if_pos hst]
            exact ⟨Nat.le_trans hp.1 hp.2.2.1, Nat.le_trans
              (Nat.le_of_eq hp.2.1) hp.2.2.1, hp.2.2.2.2, h5', h6'⟩
          · rw [if_neg hst]
            exact ih _ yielded' out' procLog'
              (fetchLog ++ (r :: rs).map (fun _ => yielded))
              (pageLog ++ [yielded]) hp.1 hp.2.1 hy' hp.2.2.2.2 h5' h6'
        | none =>
          simp only
          exact ih _ yielded' out' procLog'
            (fetchLog ++ (r :: rs).map (fun _ => yielded))
            (pageLog ++ [yielded]) hp.1 hp.2.1 hy' hp.2.2.2.2 h5' h6'

/-- **C6 (amended).**  For `max_items = N` with `N ≥ 1`, N caps the
*processed* items and the catalog: at most N entries are returned, at most
N completions are processed — each while fewer than N had been processed —
no further page is fetched once the cap is reached, and per-item tasks are
only submitted during pages begun before the cap.  What the cap does *not*
bound is the per-item fetches themselves: a page's tasks are all submitted
(their fetches issued) before any cap check, and the executor shutdown
waits for them, so reaching the cap mid-page neither stops the remaining
fetches of that page nor returns before they finish; and for N = 0 one
item is still processed, because the check runs only after each processed
completion — both shown by the counterexample. -/
theorem C6_max_items_cap (pages : Nat → SearchPayload)
    (proc : JsonV → Option (String × RemoteDecision)) (fuel n : Nat)
    (hn : 0 < n) :
    (buildRemoteIndexV2 pages proc (some n) fuel).out.length ≤ n
    ∧ (buildRemoteIndexV2 pages proc (some n) fuel).procLog.length ≤ n
    ∧ (∀ y ∈ (buildRemoteIndexV2 pages proc (some n) fuel).procLog, y < n)
    ∧ (∀ y ∈ (buildRemoteIndexV2 pages proc (some n) fuel).pageLog, y < n)
    ∧ (∀ y ∈ (buildRemoteIndexV2 pages proc (some n) fuel).fetchLog, y < n) :=
  buildLoop_inv pages proc n fuel 0 0 [] [] [] [] (Nat.le_refl 0) rfl hn
    (by intro y hy; cases hy) (by intro y hy; cases hy)
    (by intro y hy; cases hy)

def pagesW : Nat → SearchPayload := fun _ => ⟨[JsonV.null], some 1⟩

def pages2W : Nat → SearchPayload :=
  fun _ => ⟨[JsonV.null, JsonV.null], some 2⟩

def procW : JsonV → Option (String × RemoteDecision) :=
  fun _ => some ("a-b", c9RecW)

/-- Counterexample to C6 as stated.  (a) `max_items = 0`: one item is still
processed and returned, so the catalog is not "at most N entries".
(b) `max_items = 1` on a page of two results: the cap is reached at the
first processed completion (one catalog entry, one processed item), yet
*two* per-item fetches were issued — the whole page was submitted before
any cap check — so the indexer does not stop issuing fetches, nor return
with nothing further in flight, once N items have been processed
mid-page. -/
theorem C6_max_items_cap_cex :
    (¬ ((buildRemoteIndexV2 pagesW procW (some 0) 2).out.length ≤ 0))
    ∧ (buildRemoteIndexV2 pages2W procW (some 1) 2).out.length = 1
    ∧ (buildRemoteIndexV2 pages2W procW (some 1) 2).procLog.length = 1
    ∧ (buildRemoteIndexV2 pages2W procW (some 1) 2).fetchLog.length = 2 := by
  decide

/-- Witness for C6: with `max_items = 1` the cap bounds the catalog, the
processed completions, and the page fetches, and tasks are submitted only
during pages begun before the cap. -/
theorem C6_max_items_cap_witness :
    (buildRemoteIndexV2 pagesW procW (some 1) 3).out.length ≤ 1
    ∧ (buildRemoteIndexV2 pagesW procW (some 1) 3).procLog.length ≤ 1
    ∧ (∀ y ∈ (buildRemoteIndexV2 pagesW procW (some 1) 3).procLog, y < 1)
    ∧ (∀ y ∈ (buildRemoteIndexV2 pagesW procW (some 1) 3).pageLog, y < 1)
    ∧ (∀ y ∈ (buildRemoteIndexV2 pagesW procW (some 1) 3).fetchLog, y < 1) :=
  C6_max_items_cap pagesW procW 3 1 (by decide)

end AppealReader
